import Mathlib

/-!
# Verification of the Perception-challenge trajectory pipeline

A shallow embedding of the numerical core of the repository:

* `src/tracking.py` — bounding-box cleaning (`load_bboxes`), pixel selection
  (`bbox_to_pixel`), and the per-frame center map (`centers_from_csv`);
* `src/depth_xyz.py` — robust depth sampling (`robust_xyz_at`);
* `src/main.py` — the frame loop (`collect_camera_to_light_vectors`);
* `src/geometry.py` — rigid alignment (`rot2d`, `align_and_negate`).

Float64 values are modelled as exact rationals; where the code's behaviour on
non-finite floats matters (the depth-sampler filter), scalars are modelled by
`FP`, a rational extended with infinities and NaN.  Real-valued trigonometry
(`geometry.py`) is modelled over `ℝ`.
-/

namespace Perception

/-! ### Scalars for tracking.py: exact rationals in place of float64 -/

/-- Casting a float to int truncates toward zero (pandas astype int). -/
def truncQ (q : ℚ) : ℤ := q.num.tdiv q.den

/-- One raw CSV row after the five required columns were coerced with
pandas to_numeric (errors coerce): a field is none when the cell was
missing or non-numeric, i.e. NaN after coercion. -/
structure RawRow where
  frame_id : Option ℚ
  x_min : Option ℚ
  y_min : Option ℚ
  x_max : Option ℚ
  y_max : Option ℚ
deriving DecidableEq

/-- A row in which all five required fields are numeric (survives dropna). -/
structure NumRow where
  frame_id : ℚ
  x_min : ℚ
  y_min : ℚ
  x_max : ℚ
  y_max : ℚ
deriving DecidableEq

/-- A cleaned row: frame_id cast to int, box coordinates still real-valued. -/
structure CRow where
  frame_id : ℤ
  x_min : ℚ
  y_min : ℚ
  x_max : ℚ
  y_max : ℚ
deriving DecidableEq

/-- Coerce to numeric and drop rows with NaNs in required fields
(tracking.py lines 38-42). -/
def coerceRows (t : List RawRow) : List NumRow :=
  t.filterMap fun r =>
    match r.frame_id, r.x_min, r.y_min, r.x_max, r.y_max with
    | some f, some a, some b, some c, some d => some ⟨f, a, b, c, d⟩
    | _, _, _, _, _ => none

/-- Drop all-zero boxes (tracking.py lines 45-46). -/
def dropZeroBoxes (t : List NumRow) : List NumRow :=
  t.filter fun r =>
    !(decide (r.x_min = 0) && decide (r.y_min = 0) &&
      decide (r.x_max = 0) && decide (r.y_max = 0))

/-- Swap x_min and x_max when inverted (tracking.py lines 49-55). -/
def fixX (r : NumRow) : NumRow :=
  if r.x_max < r.x_min then { r with x_min := r.x_max, x_max := r.x_min } else r

/-- Swap y_min and y_max when inverted (tracking.py lines 50-60). -/
def fixY (r : NumRow) : NumRow :=
  if r.y_max < r.y_min then { r with y_min := r.y_max, y_max := r.y_min } else r

/-- Fix inverted boxes; the x repair is applied first, then the y repair,
as in the source. -/
def fixBoxes (t : List NumRow) : List NumRow := t.map fun r => fixY (fixX r)

/-- Drop degenerate boxes, width or height not positive
(tracking.py lines 63-66). -/
def dropDegenerate (t : List NumRow) : List NumRow :=
  t.filter fun r =>
    decide (0 < r.x_max - r.x_min) && decide (0 < r.y_max - r.y_min)

/-- Cast frame_id to int (tracking.py line 69). -/
def castRow (r : NumRow) : CRow :=
  ⟨truncQ r.frame_id, r.x_min, r.y_min, r.x_max, r.y_max⟩

/-- The numeric row carried by a cleaned row (frame_id read back as a
rational), used to state idempotence of the cleaning pipeline. -/
def numOf (c : CRow) : NumRow :=
  ⟨(c.frame_id : ℚ), c.x_min, c.y_min, c.x_max, c.y_max⟩

/-- A cleaned row re-serialised as a raw row (all cells numeric), used to
feed the output of cleaning back into the pipeline. -/
def toRaw (c : CRow) : RawRow :=
  ⟨some (c.frame_id : ℚ), some c.x_min, some c.y_min, some c.x_max, some c.y_max⟩

/-- Ordering of cleaned rows by frame_id, used for the final sort. -/
def rowLE (a b : CRow) : Prop := a.frame_id ≤ b.frame_id

instance : DecidableRel rowLE := fun a b =>
  inferInstanceAs (Decidable (a.frame_id ≤ b.frame_id))

instance : IsTotal CRow rowLE := ⟨fun a b => le_total a.frame_id b.frame_id⟩

instance : IsTrans CRow rowLE := ⟨fun _ _ _ h1 h2 => le_trans h1 h2⟩

/-- Sort ascending by frame_id (tracking.py line 70). -/
def sortRows (t : List CRow) : List CRow := t.insertionSort rowLE

/-- The pure cleaning pipeline of load_bboxes: coerce and dropna, drop
all-zero boxes, repair inverted boxes, drop degenerate boxes, cast
frame_id to int, sort by frame_id. -/
def cleanRows (t : List RawRow) : List CRow :=
  sortRows ((dropDegenerate (fixBoxes (dropZeroBoxes (coerceRows t)))).map castRow)

/-- Errors raised by tracking.py (both surface as ValueError in the source;
the spec taxonomy names them EmptyResultError and RangeError). -/
inductive TrackError where
  | emptyResult
  | rangeError
deriving DecidableEq

/-- load_bboxes: clean, then fail if no rows remain (tracking.py lines 72-73). -/
def loadBboxes (t : List RawRow) : Except TrackError (List CRow) :=
  let l := cleanRows t
  if l.isEmpty then .error .emptyResult else .ok l

/-- Round to nearest integer with ties to even: the semantics of the Python
built-in round applied to a float value. -/
def roundHalfEven (q : ℚ) : ℤ :=
  if q - ⌊q⌋ < 1 / 2 then ⌊q⌋
  else if 1 / 2 < q - ⌊q⌋ then ⌊q⌋ + 1
  else if ⌊q⌋ % 2 = 0 then ⌊q⌋ else ⌊q⌋ + 1

/-- bbox_to_pixel (tracking.py lines 78-94): reject top_bias outside the unit
interval, then return the rounded horizontal center and the rounded
top-biased vertical point. -/
def bboxToPixel (r : CRow) (top_bias : ℚ) : Except TrackError (ℤ × ℤ) :=
  if ¬(0 ≤ top_bias ∧ top_bias ≤ 1) then .error .rangeError
  else .ok (roundHalfEven ((r.x_min + r.x_max) / 2),
            roundHalfEven (r.y_min + top_bias * (r.y_max - r.y_min)))

/-- The payload of bboxToPixel when the bias is in range. -/
def pixelOf (r : CRow) (top_bias : ℚ) : ℤ × ℤ :=
  (roundHalfEven ((r.x_min + r.x_max) / 2),
   roundHalfEven (r.y_min + top_bias * (r.y_max - r.y_min)))

/-- Python dict insertion: the new binding overwrites any previous binding
for the same key. -/
def updateMap (m : ℤ → Option (ℤ × ℤ)) (key : ℤ) (val : ℤ × ℤ) :
    ℤ → Option (ℤ × ℤ) :=
  fun fid => if fid = key then some val else m fid

/-- The loop of centers_from_csv (tracking.py lines 103-105): fold over the
cleaned rows in order, inserting frame_id to pixel. -/
def centersLoop (b : ℚ) :
    (ℤ → Option (ℤ × ℤ)) → List CRow → Except TrackError (ℤ → Option (ℤ × ℤ))
  | m, [] => .ok m
  | m, r :: rest =>
    match bboxToPixel r b with
    | .error e => .error e
    | .ok p => centersLoop b (updateMap m r.frame_id p) rest

/-- centers_from_csv (tracking.py lines 97-106). -/
def centersFromCsv (t : List RawRow) (b : ℚ) :
    Except TrackError (ℤ → Option (ℤ × ℤ)) :=
  match loadBboxes t with
  | .error e => .error e
  | .ok rows => centersLoop b (fun _ => none) rows

/-! ### Scalars for depth_xyz.py: rationals extended with infinities and NaN -/

/-- An IEEE-style scalar: a finite value (exact rational), an infinity, or
NaN.  Overflow and rounding of finite arithmetic are idealised away. -/
inductive FP where
  | num (q : ℚ)
  | pinf
  | ninf
  | nan
deriving DecidableEq

/-- np.isfinite of one scalar. -/
def FP.isFinite : FP → Bool
  | .num _ => true
  | _ => false

/-- The rational value of a finite scalar; junk value 0 on non-finite
scalars (only applied after the finiteness filter). -/
def FP.toQ : FP → ℚ
  | .num q => q
  | _ => 0

/-- IEEE addition on the extended scalars (exact on finite values). -/
def FP.add : FP → FP → FP
  | .nan, _ => .nan
  | _, .nan => .nan
  | .pinf, .ninf => .nan
  | .ninf, .pinf => .nan
  | .pinf, _ => .pinf
  | _, .pinf => .pinf
  | .ninf, _ => .ninf
  | _, .ninf => .ninf
  | .num a, .num b => .num (a + b)

/-- IEEE squaring: finite squares exactly, both infinities square to plus
infinity, NaN propagates. -/
def FP.sq : FP → FP
  | .num q => .num (q * q)
  | .nan => .nan
  | _ => .pinf

/-- Is this scalar strictly positive?  False on NaN, as every IEEE
comparison with NaN is. -/
def FP.pos : FP → Bool
  | .num q => decide (0 < q)
  | .pinf => true
  | _ => false

/-- A depth-map sample: (X, Y, Z). -/
abbrev Vec3 := FP × FP × FP

/-- np.isfinite(row).all() for one 3-vector. -/
def finiteV (p : Vec3) : Bool := p.1.isFinite && p.2.1.isFinite && p.2.2.isFinite

/-- np.linalg.norm(row) larger than 0.0 in float semantics: the norm is the
square root of the sum of squares, and sqrt s is larger than 0 iff s is
(sqrt of NaN is NaN, and NaN compares false). -/
def normPos (p : Vec3) : Bool :=
  ((p.1.sq.add p.2.1.sq).add p.2.2.sq).pos

/-- np.median of a list of finite values: sort ascending; middle element for
odd length, mean of the two middle elements for even length.  Junk 0 on the
empty list (never reached: the caller checks for emptiness first). -/
def medianQ (l : List ℚ) : ℚ :=
  let s := l.insertionSort (fun a b => a ≤ b)
  if l.length % 2 = 1 then s.getD (l.length / 2) 0
  else (s.getD (l.length / 2 - 1) 0 + s.getD (l.length / 2) 0) / 2

/-- An (H, W, 3) camera-coordinate map.  Out-of-range indices in data are
irrelevant: the sampler only reads clipped, in-bounds positions. -/
structure XYZMap where
  H : ℕ
  W : ℕ
  data : ℕ → ℕ → Vec3

/-- np.clip(x, 0, hi) on integers: max with the lower bound, then min with
the upper bound. -/
def clipInt (x hi : ℤ) : ℤ := min (max x 0) hi

/-- The clipped column index of robust_xyz_at (depth_xyz.py line 78). -/
def clipU (xyz : XYZMap) (u : ℤ) : ℕ := (clipInt u ((xyz.W : ℤ) - 1)).toNat

/-- The clipped row index of robust_xyz_at (depth_xyz.py line 79). -/
def clipV (xyz : XYZMap) (v : ℤ) : ℕ := (clipInt v ((xyz.H : ℤ) - 1)).toNat

/-- The patch half-width max(1, k // 2) (depth_xyz.py line 82); Python //
is floor division. -/
def halfOf (k : ℤ) : ℕ := (max 1 (Int.fdiv k 2)).toNat

/-- The flattened window of robust_xyz_at (depth_xyz.py lines 83-86), in
row-major order: rows v1 to v2-1, columns u1 to u2-1, where u1 = max(0,
uc - half) (natural subtraction), u2 = min(W, uc + half + 1), and likewise
for v.  Nonempty whenever H and W are at least 1. -/
def patchAt (xyz : XYZMap) (u v : ℤ) (k : ℤ) : List Vec3 :=
  let uc := clipU xyz u
  let vc := clipV xyz v
  let half := halfOf k
  let u1 := uc - half
  let u2 := min xyz.W (uc + half + 1)
  let v1 := vc - half
  let v2 := min xyz.H (vc + half + 1)
  (List.range (v2 - v1)).flatMap fun i =>
    (List.range (u2 - u1)).map fun j => xyz.data (v1 + i) (u1 + j)

/-- robust_xyz_at (depth_xyz.py lines 51-98): clip the pixel, take the
window, keep the all-finite nonzero-norm vectors, return their element-wise
median, falling back to the raw vector at the clipped pixel when none
survive. -/
def robustXyzAt (xyz : XYZMap) (u v : ℤ) (k : ℤ) : Vec3 :=
  let good := (patchAt xyz u v k).filter fun p => finiteV p && normPos p
  if good.isEmpty then xyz.data (clipV xyz v) (clipU xyz u)
  else (.num (medianQ (good.map fun p => p.1.toQ)),
        .num (medianQ (good.map fun p => p.2.1.toQ)),
        .num (medianQ (good.map fun p => p.2.2.toQ)))

/-! ### main.py: the frame loop -/

/-- The error of collect_camera_to_light_vectors when no frame was usable
(RuntimeError in the source; EmptyResultError in the spec taxonomy). -/
inductive PipeError where
  | emptyResult
deriving DecidableEq

/-- The loop body of collect_camera_to_light_vectors (main.py lines 48-59):
walk the frame ids in order; a frame with no depth map increments the
skipped count; otherwise sample (X, Y, Z) at the frame's pixel and keep
(X, Y).  Returns (vectors, used, skipped). -/
def collectLoop (centers : ℤ → ℤ × ℤ) (depth : ℤ → Option XYZMap) (k : ℤ) :
    List ℤ → List (FP × FP) × ℕ × ℕ
  | [] => ([], 0, 0)
  | fid :: rest =>
    let r := collectLoop centers depth k rest
    match depth fid with
    | none => (r.1, r.2.1, r.2.2 + 1)
    | some xyz =>
      let s := robustXyzAt xyz (centers fid).1 (centers fid).2 k
      ((s.1, s.2.1) :: r.1, r.2.1 + 1, r.2.2)

/-- collect_camera_to_light_vectors (main.py lines 26-71), at the level of
the frame loop: iterate over the sorted frame ids, then fail iff zero
frames were used. -/
def collectVectors (keys : List ℤ) (centers : ℤ → ℤ × ℤ)
    (depth : ℤ → Option XYZMap) (k : ℤ) :
    Except PipeError (List (FP × FP) × ℕ × ℕ) :=
  let r := collectLoop centers depth k (keys.insertionSort (fun a b => a ≤ b))
  if r.2.1 = 0 then .error .emptyResult else .ok r

/-! ### geometry.py: rigid alignment over the reals -/

/-- Errors raised by align_and_negate (all ValueError in the source; the
spec taxonomy names them EmptyInputError and DegenerateReferenceError). -/
inductive GeomError where
  | emptyInput
  | degenerateReference
deriving DecidableEq

/-- rot2d (geometry.py lines 7-16): the 2 by 2 rotation matrix, stored as a
pair of rows. -/
noncomputable def rot2d (theta : ℝ) : (ℝ × ℝ) × (ℝ × ℝ) :=
  ((Real.cos theta, -Real.sin theta), (Real.sin theta, Real.cos theta))

/-- Matrix-vector product for the 2 by 2 rotation. -/
def matApply (M : (ℝ × ℝ) × (ℝ × ℝ)) (p : ℝ × ℝ) : ℝ × ℝ :=
  (M.1.1 * p.1 + M.1.2 * p.2, M.2.1 * p.1 + M.2.2 * p.2)

/-- Component-wise negation of a 2-vector. -/
def neg2 (p : ℝ × ℝ) : ℝ × ℝ := (-p.1, -p.2)

/-- np.linalg.norm of a 2-vector. -/
noncomputable def norm2 (p : ℝ × ℝ) : ℝ := Real.sqrt (p.1 ^ 2 + p.2 ^ 2)

/-- np.arctan2(y, x), modelled by the complex argument of x + y i: range
(-pi, pi], and 0 at the origin, matching numpy. -/
noncomputable def atan2 (y x : ℝ) : ℝ := Complex.arg ⟨x, y⟩

/-- align_and_negate (geometry.py lines 19-59): reject the empty sequence;
reject a first vector of near-zero magnitude; otherwise rotate every vector
by minus the angle of the first one and negate.  Over the reals every norm
is finite, so the non-finite branch of the source check is vacuous. -/
noncomputable def alignAndNegate (p_cam : List (ℝ × ℝ)) :
    Except GeomError (List (ℝ × ℝ)) :=
  match p_cam with
  | [] => .error .emptyInput
  | p0 :: rest =>
    if norm2 p0 < 1e-9 then .error .degenerateReference
    else
      let theta0 := atan2 p0.2 p0.1
      .ok ((p0 :: rest).map fun p => neg2 (matApply (rot2d (-theta0)) p))

/-! ### Helper lemmas for geometry.py -/

lemma alignAndNegate_ok (p0 : ℝ × ℝ) (rest : List (ℝ × ℝ))
    (h : ¬(norm2 p0 < 1e-9)) :
    alignAndNegate (p0 :: rest) =
      .ok ((p0 :: rest).map fun p =>
        neg2 (matApply (rot2d (-(atan2 p0.2 p0.1))) p)) := by
  rw [alignAndNegate, if_neg h]

lemma roundtrip_vec (θ : ℝ) (p : ℝ × ℝ) :
    neg2 (matApply (rot2d θ) (neg2 (matApply (rot2d (-θ)) p))) = p := by
  obtain ⟨x, y⟩ := p
  simp only [neg2, matApply, rot2d, Real.cos_neg, Real.sin_neg, Prod.mk.injEq]
  have h := Real.sin_sq_add_cos_sq θ
  constructor
  · linear_combination x * h
  · linear_combination y * h

lemma norm2_eq_abs (p : ℝ × ℝ) : norm2 p = Complex.abs ⟨p.1, p.2⟩ := by
  rw [norm2, Complex.abs_apply, Complex.normSq_mk]
  ring_nf

lemma mk_ne_zero_of_norm2 (p : ℝ × ℝ) (h : (1e-9 : ℝ) ≤ norm2 p) :
    (⟨p.1, p.2⟩ : ℂ) ≠ 0 := by
  intro hz0
  rw [norm2_eq_abs, hz0] at h
  simp at h
  norm_num at h

lemma aligned_first_snd (p0 : ℝ × ℝ) (hz : (⟨p0.1, p0.2⟩ : ℂ) ≠ 0) :
    (matApply (rot2d (-(atan2 p0.2 p0.1))) p0).2 = 0 := by
  simp only [matApply, rot2d, Real.sin_neg, Real.cos_neg]
  rw [atan2, Complex.cos_arg hz, Complex.sin_arg]
  simp only [Complex.ofReal_re]
  ring

lemma norm2_one_zero : norm2 ((1:ℝ), 0) = 1 := by
  simp [norm2]

lemma norm2_zero_zero : norm2 ((0:ℝ), 0) = 0 := by
  simp [norm2]

/-- C1: TrajectoryAligner round-trip.  For every input sequence with at
least one vector whose first vector has magnitude at least 1e-9 (finiteness
is automatic over the reals), align_and_negate succeeds, its output has the
same length and order as the input, and rotating each output position by
theta0 = atan2(p0.y, p0.x) and negating recovers the corresponding input
vector exactly. -/
theorem alignAndNegate_roundtrip (p0 : ℝ × ℝ) (rest : List (ℝ × ℝ))
    (h : 1e-9 ≤ norm2 p0) :
    ∃ out, alignAndNegate (p0 :: rest) = .ok out ∧
      out.length = (p0 :: rest).length ∧
      out.map (fun q => neg2 (matApply (rot2d (atan2 p0.2 p0.1)) q)) = p0 :: rest := by
  refine ⟨(p0 :: rest).map (fun p => neg2 (matApply (rot2d (-(atan2 p0.2 p0.1))) p)),
    alignAndNegate_ok p0 rest (not_lt.mpr h), by simp, ?_⟩
  rw [List.map_map]
  have hcongr : ∀ q ∈ (p0 :: rest),
      ((fun q => neg2 (matApply (rot2d (atan2 p0.2 p0.1)) q)) ∘
        (fun p => neg2 (matApply (rot2d (-(atan2 p0.2 p0.1))) p))) q = id q := by
    intro q _
    simp only [Function.comp_apply, id_eq, roundtrip_vec]
  rw [List.map_congr_left hcongr, List.map_id]

/-- Witness for C1 at the input [(1, 0)]. -/
theorem alignAndNegate_roundtrip_witness :
    ∃ out, alignAndNegate [((1:ℝ), 0)] = .ok out ∧ out.length = 1 ∧
      out.map (fun q => neg2 (matApply (rot2d (atan2 (0:ℝ) 1)) q)) = [((1:ℝ), 0)] := by
  have h : (1e-9 : ℝ) ≤ norm2 ((1:ℝ), 0) := by
    rw [norm2_one_zero]; norm_num
  simpa using alignAndNegate_roundtrip ((1:ℝ), 0) [] h

/-- C5: for every valid input sequence (first vector of magnitude at least
1e-9), the first EgoPosition returned by align_and_negate has y-component
exactly 0. -/
theorem alignAndNegate_first_y (p0 : ℝ × ℝ) (rest : List (ℝ × ℝ))
    (h : 1e-9 ≤ norm2 p0) :
    ∃ x out', alignAndNegate (p0 :: rest) = .ok ((x, 0) :: out') := by
  refine ⟨-(matApply (rot2d (-(atan2 p0.2 p0.1))) p0).1,
    rest.map (fun p => neg2 (matApply (rot2d (-(atan2 p0.2 p0.1))) p)), ?_⟩
  rw [alignAndNegate_ok p0 rest (not_lt.mpr h)]
  simp only [List.map_cons]
  congr 2
  rw [neg2, aligned_first_snd p0 (mk_ne_zero_of_norm2 p0 h)]
  norm_num

/-- Witness for C5 at the input [(1, 0)]. -/
theorem alignAndNegate_first_y_witness :
    ∃ x out', alignAndNegate [((1:ℝ), 0)] = .ok ((x, 0) :: out') := by
  have h : (1e-9 : ℝ) ≤ norm2 ((1:ℝ), 0) := by
    rw [norm2_one_zero]; norm_num
  exact alignAndNegate_first_y ((1:ℝ), 0) [] h

/-- C6: align_and_negate fails with EmptyInputError on the empty sequence,
fails with DegenerateReferenceError when the first vector's magnitude is
below 1e-9 (over the reals every magnitude is finite, so the non-finite
branch of the source check is vacuous), and succeeds on every other
sequence of 2-vectors. -/
theorem alignAndNegate_cases :
    (alignAndNegate [] = .error .emptyInput) ∧
    (∀ p0 rest, norm2 p0 < 1e-9 →
      alignAndNegate (p0 :: rest) = .error .degenerateReference) ∧
    (∀ p0 rest, 1e-9 ≤ norm2 p0 →
      ∃ out, alignAndNegate (p0 :: rest) = .ok out) := by
  refine ⟨rfl, fun p0 rest h => ?_, fun p0 rest h => ?_⟩
  · rw [alignAndNegate, if_pos h]
  · exact ⟨_, alignAndNegate_ok p0 rest (not_lt.mpr h)⟩

/-- Witness for C6 at the inputs [], [(0, 0)] and [(1, 0)]. -/
theorem alignAndNegate_cases_witness :
    alignAndNegate [] = .error .emptyInput ∧
    alignAndNegate [((0:ℝ), 0)] = .error .degenerateReference ∧
    ∃ out, alignAndNegate [((1:ℝ), 0)] = .ok out := by
  refine ⟨alignAndNegate_cases.1, alignAndNegate_cases.2.1 ((0:ℝ), 0) [] ?_,
    alignAndNegate_cases.2.2 ((1:ℝ), 0) [] ?_⟩
  · rw [norm2_zero_zero]; norm_num
  · rw [norm2_one_zero]; norm_num

/-! ### Helper lemmas for tracking.py -/

lemma truncQ_intCast (z : ℤ) : truncQ (z : ℚ) = z := by
  rw [truncQ, Rat.intCast_num, Rat.intCast_den]
  exact Int.tdiv_one z

lemma mem_cleanRows_good {t : List RawRow} {r : CRow} (hr : r ∈ cleanRows t) :
    0 < r.x_max - r.x_min ∧ 0 < r.y_max - r.y_min := by
  rw [cleanRows, sortRows, List.mem_insertionSort] at hr
  obtain ⟨r', hr', hcast⟩ := List.mem_map.mp hr
  rw [dropDegenerate, List.mem_filter] at hr'
  have h := hr'.2
  simp only [Bool.and_eq_true, decide_eq_true_eq] at h
  subst hcast
  exact h

lemma sorted_cleanRows (t : List RawRow) : (cleanRows t).Sorted rowLE := by
  rw [cleanRows, sortRows]
  exact List.sorted_insertionSort rowLE _

lemma coerceRows_map_toRaw (l : List CRow) :
    coerceRows (l.map toRaw) = l.map numOf := by
  induction l with
  | nil => rfl
  | cons c l ih =>
    simp only [List.map_cons, coerceRows, List.filterMap_cons] at ih ⊢
    rw [toRaw, numOf]
    exact congrArg _ ih

/-- C3 (amended): every record in the cleaned output satisfies
x_max larger than x_min and y_max larger than y_min, no record is the
all-zero box, and the output is sorted by frame_id in non-decreasing
order.  (The uniqueness conjunct of the original claim is refuted by the
counterexample below: the pipeline never deduplicates frame ids.) -/
theorem cleanRows_invariants (t : List RawRow) :
    (∀ r ∈ cleanRows t, r.x_min < r.x_max ∧ r.y_min < r.y_max ∧
      ¬(r.x_min = 0 ∧ r.y_min = 0 ∧ r.x_max = 0 ∧ r.y_max = 0)) ∧
    (cleanRows t).Sorted rowLE := by
  refine ⟨fun r hr => ?_, sorted_cleanRows t⟩
  obtain ⟨hx, hy⟩ := mem_cleanRows_good hr
  refine ⟨by linarith, by linarith, ?_⟩
  rintro ⟨h1, _, h3, _⟩
  rw [h1, h3] at hx
  norm_num at hx

/-- C3 counterexample: a table with two identical valid rows for frame 0 is
cleaned to two records sharing frame_id 0, so frame_id is not unique
within the cleaned set. -/
theorem cleanRows_not_unique :
    ¬ List.Pairwise (fun a b : CRow => a.frame_id ≠ b.frame_id)
      (cleanRows [⟨some 0, some 1, some 2, some 3, some 4⟩,
                  ⟨some 0, some 1, some 2, some 3, some 4⟩]) := by
  have hclean : cleanRows [⟨some 0, some 1, some 2, some 3, some 4⟩,
      ⟨some 0, some 1, some 2, some 3, some 4⟩] =
      [⟨0, 1, 2, 3, 4⟩, ⟨0, 1, 2, 3, 4⟩] := by
    norm_num [cleanRows, coerceRows, dropZeroBoxes, fixBoxes, fixX, fixY,
      dropDegenerate, castRow, sortRows, truncQ, List.insertionSort,
      List.orderedInsert, rowLE, List.filterMap, List.filter]
  rw [hclean]
  simp

/-- Witness for C3 at a one-row table. -/
theorem cleanRows_invariants_witness :
    (⟨0, 1, 2, 3, 4⟩ : CRow) ∈ cleanRows [⟨some 0, some 1, some 2, some 3, some 4⟩] ∧
    ((⟨0, 1, 2, 3, 4⟩ : CRow).x_min < (⟨0, 1, 2, 3, 4⟩ : CRow).x_max ∧
     (⟨0, 1, 2, 3, 4⟩ : CRow).y_min < (⟨0, 1, 2, 3, 4⟩ : CRow).y_max ∧
      ¬((⟨0, 1, 2, 3, 4⟩ : CRow).x_min = 0 ∧ (⟨0, 1, 2, 3, 4⟩ : CRow).y_min = 0 ∧
        (⟨0, 1, 2, 3, 4⟩ : CRow).x_max = 0 ∧ (⟨0, 1, 2, 3, 4⟩ : CRow).y_max = 0)) := by
  have hmem : (⟨0, 1, 2, 3, 4⟩ : CRow) ∈
      cleanRows [⟨some 0, some 1, some 2, some 3, some 4⟩] := by
    norm_num [cleanRows, coerceRows, dropZeroBoxes, fixBoxes, fixX, fixY,
      dropDegenerate, castRow, sortRows, truncQ, List.insertionSort,
      List.orderedInsert, List.filterMap, List.filter]
  exact ⟨hmem, (cleanRows_invariants _).1 _ hmem⟩

/-- C8: the per-axis swap repairs commute (each touches only its own axis),
and re-running the cleaning pipeline on a table that is already the output
of cleaning returns that table unchanged. -/
theorem cleanRows_idempotent :
    (∀ r : NumRow, fixY (fixX r) = fixX (fixY r)) ∧
    (∀ t : List RawRow, cleanRows ((cleanRows t).map toRaw) = cleanRows t) := by
  constructor
  · intro r
    by_cases hx : r.x_max < r.x_min <;> by_cases hy : r.y_max < r.y_min <;>
      simp [fixX, fixY, hx, hy]
  · intro t
    have hgood : ∀ c ∈ cleanRows t, 0 < c.x_max - c.x_min ∧ 0 < c.y_max - c.y_min :=
      fun c hc => mem_cleanRows_good hc
    rw [cleanRows, coerceRows_map_toRaw]
    have h1 : dropZeroBoxes ((cleanRows t).map numOf) = (cleanRows t).map numOf := by
      rw [dropZeroBoxes, List.filter_eq_self]
      intro a ha
      obtain ⟨c, hc, rfl⟩ := List.mem_map.mp ha
      have hx := (hgood c hc).1
      simp only [numOf, Bool.not_eq_true', Bool.and_eq_false_iff, decide_eq_false_iff_not]
      by_contra hcon
      push_neg at hcon
      obtain ⟨⟨⟨h1, _⟩, h3⟩, _⟩ := hcon
      rw [h1, h3] at hx
      norm_num at hx
    have h2 : fixBoxes ((cleanRows t).map numOf) = (cleanRows t).map numOf := by
      rw [fixBoxes]
      conv_rhs => rw [← List.map_id ((cleanRows t).map numOf)]
      apply List.map_congr_left
      intro a ha
      obtain ⟨c, hc, rfl⟩ := List.mem_map.mp ha
      have hx := (hgood c hc).1
      have hy := (hgood c hc).2
      rw [fixX, if_neg (by simp only [numOf]; intro hlt; linarith),
          fixY, if_neg (by simp only [numOf]; intro hlt; linarith)]
      rfl
    have h3 : dropDegenerate ((cleanRows t).map numOf) = (cleanRows t).map numOf := by
      rw [dropDegenerate, List.filter_eq_self]
      intro a ha
      obtain ⟨c, hc, rfl⟩ := List.mem_map.mp ha
      have hx := (hgood c hc).1
      have hy := (hgood c hc).2
      simp only [numOf, Bool.and_eq_true, decide_eq_true_eq]
      exact ⟨hx, hy⟩
    have h4 : ((cleanRows t).map numOf).map castRow = cleanRows t := by
      rw [List.map_map]
      conv_rhs => rw [← List.map_id (cleanRows t)]
      apply List.map_congr_left
      intro c _
      cases c
      simp [castRow, numOf, truncQ_intCast, Function.comp]
    have h5 : sortRows (cleanRows t) = cleanRows t := by
      rw [sortRows]
      exact List.Sorted.insertionSort_eq (sorted_cleanRows t)
    rw [h1, h2, h3, h4, h5]

lemma rhe_lb (q : ℚ) : ⌊q⌋ ≤ roundHalfEven q := by
  rw [roundHalfEven]
  split_ifs <;> omega

lemma rhe_ub (q : ℚ) : roundHalfEven q ≤ ⌊q⌋ + 1 := by
  rw [roundHalfEven]
  split_ifs <;> omega

lemma roundHalfEven_mono {a b : ℚ} (h : a ≤ b) :
    roundHalfEven a ≤ roundHalfEven b := by
  rcases lt_or_le ⌊a⌋ ⌊b⌋ with hf | hf
  · calc roundHalfEven a ≤ ⌊a⌋ + 1 := rhe_ub a
      _ ≤ ⌊b⌋ := by omega
      _ ≤ roundHalfEven b := rhe_lb b
  · have hfe : ⌊a⌋ = ⌊b⌋ := le_antisymm (Int.floor_mono h) hf
    rw [roundHalfEven, roundHalfEven, hfe]
    split_ifs <;> first | omega | linarith

/-- C4 (amended): bbox_to_pixel is deterministic (it is a pure function of
the record and the bias) and monotone non-decreasing in top_bias: for
biases b1 at most b2 in the unit interval and y_max larger than y_min, the
row coordinate at b2 is at least the one at b1, with the same column.
(Strict increase, as originally claimed, fails because of the rounding to
integer pixels; see the counterexample.) -/
theorem bboxToPixel_mono (r : CRow) (b1 b2 : ℚ) (h0 : 0 ≤ b1) (h12 : b1 ≤ b2)
    (h1 : b2 ≤ 1) (hy : r.y_min < r.y_max) :
    ∃ u v1 v2, bboxToPixel r b1 = .ok (u, v1) ∧ bboxToPixel r b2 = .ok (u, v2) ∧
      v1 ≤ v2 := by
  refine ⟨roundHalfEven ((r.x_min + r.x_max) / 2),
    roundHalfEven (r.y_min + b1 * (r.y_max - r.y_min)),
    roundHalfEven (r.y_min + b2 * (r.y_max - r.y_min)), ?_, ?_, ?_⟩
  · rw [bboxToPixel, if_neg (not_not_intro ⟨h0, le_trans h12 h1⟩)]
  · rw [bboxToPixel, if_neg (not_not_intro ⟨le_trans h0 h12, h1⟩)]
  · apply roundHalfEven_mono
    have : b1 * (r.y_max - r.y_min) ≤ b2 * (r.y_max - r.y_min) :=
      mul_le_mul_of_nonneg_right h12 (by linarith)
    linarith

/-- Witness for C4 at the box (0, 0, 10, 10) with biases 0 and 1. -/
theorem bboxToPixel_mono_witness :
    (0:ℚ) ≤ 0 ∧ (0:ℚ) ≤ 1 ∧ (1:ℚ) ≤ 1 ∧
    ((⟨0, 0, 0, 10, 10⟩ : CRow).y_min < (⟨0, 0, 0, 10, 10⟩ : CRow).y_max) ∧
    ∃ u v1 v2, bboxToPixel ⟨0, 0, 0, 10, 10⟩ 0 = .ok (u, v1) ∧
      bboxToPixel ⟨0, 0, 0, 10, 10⟩ 1 = .ok (u, v2) ∧ v1 ≤ v2 := by
  refine ⟨le_refl 0, by norm_num, le_refl 1, by norm_num, ?_⟩
  exact bboxToPixel_mono ⟨0, 0, 0, 10, 10⟩ 0 1 (by norm_num) (by norm_num)
    (by norm_num) (by norm_num)

/-- C4 counterexample: on the box (0, 0, 10, 10), the biases 3/10 and
31/100 (both in range, the second strictly larger, height positive) both
produce the pixel (5, 3): the row coordinate did not strictly increase. -/
theorem bboxToPixel_strict_cex :
    (3/10 : ℚ) < 31/100 ∧ (0:ℚ) ≤ 3/10 ∧ (31/100:ℚ) ≤ 1 ∧
    ((⟨0, 0, 0, 10, 10⟩ : CRow).y_min < (⟨0, 0, 0, 10, 10⟩ : CRow).y_max) ∧
    bboxToPixel ⟨0, 0, 0, 10, 10⟩ (3/10) = .ok (5, 3) ∧
    bboxToPixel ⟨0, 0, 0, 10, 10⟩ (31/100) = .ok (5, 3) := by
  refine ⟨by norm_num, by norm_num, by norm_num, by norm_num, ?_, ?_⟩
  · rw [bboxToPixel, if_neg (by norm_num)]
    norm_num [roundHalfEven]
  · rw [bboxToPixel, if_neg (by norm_num)]
    norm_num [roundHalfEven]

lemma centersLoop_spec (b : ℚ) (hb0 : 0 ≤ b) (hb1 : b ≤ 1) :
    ∀ (rows : List CRow) (m : ℤ → Option (ℤ × ℤ)),
      ∃ m', centersLoop b m rows = .ok m' ∧
        ∀ fid, m' fid =
          match rows.reverse.find? (fun r => decide (r.frame_id = fid)) with
          | some r => some (pixelOf r b)
          | none => m fid := by
  intro rows
  induction rows with
  | nil => exact fun m => ⟨m, rfl, fun fid => by simp⟩
  | cons r rows ih =>
    intro m
    have hpix : bboxToPixel r b = .ok (pixelOf r b) := by
      rw [bboxToPixel, if_neg (not_not_intro ⟨hb0, hb1⟩)]
      rfl
    obtain ⟨m', hm', hspec⟩ := ih (updateMap m r.frame_id (pixelOf r b))
    refine ⟨m', by simp only [centersLoop, hpix]; exact hm', fun fid => ?_⟩
    rw [hspec fid, List.reverse_cons, List.find?_append]
    cases hfind : rows.reverse.find? (fun r => decide (r.frame_id = fid)) with
    | some r' => simp [Option.or]
    | none =>
      by_cases hf : r.frame_id = fid
      · simp [Option.or, List.find?, hf, updateMap]
      · simp [Option.or, List.find?, hf, updateMap]
        intro hcon
        exact absurd hcon.symm hf

/-- C9: for an in-range bias and a nonempty cleaned table, centers_from_csv
returns one pixel per frame_id: exactly the pixel of the last row with that
frame_id in the cleaned (sorted) order, because later rows overwrite
earlier ones in the dict; frame ids with no surviving row are unmapped. -/
theorem centersFromCsv_last_wins (t : List RawRow) (b : ℚ)
    (hb0 : 0 ≤ b) (hb1 : b ≤ 1) (hne : cleanRows t ≠ []) :
    ∃ m, centersFromCsv t b = .ok m ∧
      ∀ fid, m fid =
        match (cleanRows t).reverse.find? (fun r => decide (r.frame_id = fid)) with
        | some r => some (pixelOf r b)
        | none => none := by
  obtain ⟨m, hm, hspec⟩ := centersLoop_spec b hb0 hb1 (cleanRows t) (fun _ => none)
  refine ⟨m, ?_, hspec⟩
  rw [centersFromCsv, loadBboxes]
  simp only [List.isEmpty_iff, hne, if_false]
  exact hm

/-- Witness for C9 at a table with two surviving rows for frame 0. -/
theorem centersFromCsv_last_wins_witness :
    ∃ m, centersFromCsv [⟨some 0, some 1, some 2, some 3, some 4⟩,
        ⟨some 0, some 1, some 4, some 3, some 8⟩] (1/2) = .ok m ∧
      ∀ fid, m fid =
        match (cleanRows [⟨some 0, some 1, some 2, some 3, some 4⟩,
            ⟨some 0, some 1, some 4, some 3, some 8⟩]).reverse.find?
            (fun r => decide (r.frame_id = fid)) with
        | some r => some (pixelOf r (1/2))
        | none => none := by
  apply centersFromCsv_last_wins
  · norm_num
  · norm_num
  · norm_num [cleanRows, coerceRows, dropZeroBoxes, fixBoxes, fixX, fixY,
      dropDegenerate, castRow, sortRows, truncQ, List.insertionSort,
      List.orderedInsert, rowLE, List.filterMap, List.filter]
    simp

/-! ### Helper lemmas for depth_xyz.py and main.py -/

lemma one_le_halfOf (k : ℤ) : 1 ≤ halfOf k := by
  rw [halfOf]
  generalize Int.fdiv k 2 = d
  omega

lemma clipU_le (xyz : XYZMap) (u : ℤ) (hW : 1 ≤ xyz.W) :
    clipU xyz u ≤ xyz.W - 1 := by
  rw [clipU, clipInt]
  omega

lemma clipV_le (xyz : XYZMap) (v : ℤ) (hH : 1 ≤ xyz.H) :
    clipV xyz v ≤ xyz.H - 1 := by
  rw [clipV, clipInt]
  omega

lemma patchAt_ne_nil (xyz : XYZMap) (u v k : ℤ) (hH : 1 ≤ xyz.H)
    (hW : 1 ≤ xyz.W) : patchAt xyz u v k ≠ [] := by
  have hu := clipU_le xyz u hW
  have hv := clipV_le xyz v hH
  have hk := one_le_halfOf k
  apply List.ne_nil_of_mem (a := xyz.data ((clipV xyz v - halfOf k) + 0)
    ((clipU xyz u - halfOf k) + 0))
  rw [patchAt]
  apply List.mem_flatMap.mpr
  refine ⟨0, List.mem_range.mpr (by omega), ?_⟩
  apply List.mem_map.mpr
  exact ⟨0, List.mem_range.mpr (by omega), rfl⟩

/-- C10: for every map with H and W at least 1, every integer pixel (u, v)
(negative and out-of-range included) and every integer patch size k, the
clipped pixel lies in [0, W-1] x [0, H-1] (lower bounds are inherent in the
natural-number indices), the window bounds satisfy u1 smaller than u2 at
most W and v1 smaller than v2 at most H, and the extracted window is a
nonempty in-bounds sub-rectangle; every index the sampler reads is in
bounds, and the result is a triple by construction. -/
theorem robustXyzAt_safe (xyz : XYZMap) (u v k : ℤ) (hH : 1 ≤ xyz.H)
    (hW : 1 ≤ xyz.W) :
    clipU xyz u ≤ xyz.W - 1 ∧ clipV xyz v ≤ xyz.H - 1 ∧
    clipU xyz u - halfOf k < min xyz.W (clipU xyz u + halfOf k + 1) ∧
    min xyz.W (clipU xyz u + halfOf k + 1) ≤ xyz.W ∧
    clipV xyz v - halfOf k < min xyz.H (clipV xyz v + halfOf k + 1) ∧
    min xyz.H (clipV xyz v + halfOf k + 1) ≤ xyz.H ∧
    patchAt xyz u v k ≠ [] := by
  have hu := clipU_le xyz u hW
  have hv := clipV_le xyz v hH
  have hk := one_le_halfOf k
  exact ⟨hu, hv, by omega, by omega, by omega, by omega,
    patchAt_ne_nil xyz u v k hH hW⟩

/-- Witness for C10 on a 1 by 1 map at the out-of-range pixel (-5, 7) with
negative patch size -3. -/
theorem robustXyzAt_safe_witness :
    clipU ⟨1, 1, fun _ _ => (.num 1, .num 0, .num 0)⟩ (-5) ≤ 0 ∧
    clipV ⟨1, 1, fun _ _ => (.num 1, .num 0, .num 0)⟩ 7 ≤ 0 ∧
    clipU ⟨1, 1, fun _ _ => (.num 1, .num 0, .num 0)⟩ (-5) - halfOf (-3) <
      min 1 (clipU ⟨1, 1, fun _ _ => (.num 1, .num 0, .num 0)⟩ (-5) + halfOf (-3) + 1) ∧
    min 1 (clipU ⟨1, 1, fun _ _ => (.num 1, .num 0, .num 0)⟩ (-5) + halfOf (-3) + 1) ≤ 1 ∧
    clipV ⟨1, 1, fun _ _ => (.num 1, .num 0, .num 0)⟩ 7 - halfOf (-3) <
      min 1 (clipV ⟨1, 1, fun _ _ => (.num 1, .num 0, .num 0)⟩ 7 + halfOf (-3) + 1) ∧
    min 1 (clipV ⟨1, 1, fun _ _ => (.num 1, .num 0, .num 0)⟩ 7 + halfOf (-3) + 1) ≤ 1 ∧
    patchAt ⟨1, 1, fun _ _ => (.num 1, .num 0, .num 0)⟩ (-5) 7 (-3) ≠ [] := by
  have h := robustXyzAt_safe ⟨1, 1, fun _ _ => (.num 1, .num 0, .num 0)⟩
    (-5) 7 (-3) (le_refl 1) (le_refl 1)
  exact h

/-- C2: when every 3-vector of the window is all-finite with nonzero
Euclidean norm, robust_xyz_at returns exactly the element-wise median of
the window; when no vector survives the finite/nonzero filter, it returns
the vector stored at the clipped pixel verbatim.  H and W at least 1 keep
the window nonempty (for H or W zero the source would crash on indexing). -/
theorem robustXyzAt_median (xyz : XYZMap) (u v k : ℤ) (hH : 1 ≤ xyz.H)
    (hW : 1 ≤ xyz.W) :
    ((∀ p ∈ patchAt xyz u v k, finiteV p = true ∧ normPos p = true) →
      robustXyzAt xyz u v k =
        (.num (medianQ ((patchAt xyz u v k).map fun p => p.1.toQ)),
         .num (medianQ ((patchAt xyz u v k).map fun p => p.2.1.toQ)),
         .num (medianQ ((patchAt xyz u v k).map fun p => p.2.2.toQ)))) ∧
    ((∀ p ∈ patchAt xyz u v k, ¬(finiteV p = true ∧ normPos p = true)) →
      robustXyzAt xyz u v k = xyz.data (clipV xyz v) (clipU xyz u)) := by
  constructor
  · intro hall
    have hfilter : (patchAt xyz u v k).filter (fun p => finiteV p && normPos p) =
        patchAt xyz u v k := by
      apply List.filter_eq_self.mpr
      intro a ha
      rw [Bool.and_eq_true]
      exact hall a ha
    rw [robustXyzAt]
    simp only [hfilter]
    rw [if_neg]
    simp only [List.isEmpty_iff]
    exact patchAt_ne_nil xyz u v k hH hW
  · intro hnone
    have hfilter : (patchAt xyz u v k).filter (fun p => finiteV p && normPos p) = [] := by
      apply List.filter_eq_nil_iff.mpr
      intro a ha
      intro hcon
      rw [Bool.and_eq_true] at hcon
      exact hnone a ha hcon
    rw [robustXyzAt]
    simp only [hfilter]
    rfl

/-- Witness for C2: a 1 by 1 map with one valid vector yields its median;
a 1 by 1 map whose only vector has a NaN component falls back to the raw
vector at the clipped pixel. -/
theorem robustXyzAt_median_witness :
    robustXyzAt ⟨1, 1, fun _ _ => (.num 1, .num 0, .num 0)⟩ 0 0 3 =
      (.num 1, .num 0, .num 0) ∧
    robustXyzAt ⟨1, 1, fun _ _ => (.nan, .num 0, .num 0)⟩ 0 0 3 =
      (.nan, .num 0, .num 0) := by
  have hp1 : patchAt ⟨1, 1, fun _ _ => ((.num 1 : FP), (.num 0 : FP), (.num 0 : FP))⟩ 0 0 3 =
      [(.num 1, .num 0, .num 0)] := by rfl
  have hp2 : patchAt ⟨1, 1, fun _ _ => ((.nan : FP), (.num 0 : FP), (.num 0 : FP))⟩ 0 0 3 =
      [(.nan, .num 0, .num 0)] := by rfl
  constructor
  · have h := (robustXyzAt_median ⟨1, 1, fun _ _ => (.num 1, .num 0, .num 0)⟩
      0 0 3 (le_refl 1) (le_refl 1)).1
    rw [hp1] at h
    rw [h ?_]
    · simp [medianQ, FP.toQ, List.insertionSort, List.orderedInsert]
    · intro p hp
      simp only [List.mem_singleton] at hp
      subst hp
      refine ⟨rfl, ?_⟩
      norm_num [normPos, FP.sq, FP.add, FP.pos]
  · have h := (robustXyzAt_median ⟨1, 1, fun _ _ => (.nan, .num 0, .num 0)⟩
      0 0 3 (le_refl 1) (le_refl 1)).2
    rw [hp2] at h
    rw [h ?_]
    intro p hp
    simp only [List.mem_singleton] at hp
    subst hp
    rintro ⟨hfin, _⟩
    simp [finiteV, FP.isFinite] at hfin


lemma collectLoop_spec (centers : ℤ → ℤ × ℤ) (depth : ℤ → Option XYZMap)
    (k : ℤ) : ∀ fids : List ℤ,
      (collectLoop centers depth k fids).2.2 =
        (fids.filter fun f => (depth f).isNone).length ∧
      (collectLoop centers depth k fids).2.1 =
        (fids.filter fun f => (depth f).isSome).length ∧
      (collectLoop centers depth k fids).1.length =
        (collectLoop centers depth k fids).2.1 := by
  intro fids
  induction fids with
  | nil => exact ⟨rfl, rfl, rfl⟩
  | cons fid rest ih =>
    obtain ⟨ih1, ih2, ih3⟩ := ih
    cases hd : depth fid with
    | none =>
      rw [List.filter_cons_of_pos (by rw [hd]; rfl),
          List.filter_cons_of_neg (by rw [hd]; simp)]
      simp only [collectLoop, hd, List.length_cons]
      exact ⟨by rw [ih1], by rw [ih2], ih3⟩
    | some xyz =>
      rw [List.filter_cons_of_neg (by rw [hd]; simp),
          List.filter_cons_of_pos (by rw [hd]; rfl)]
      simp only [collectLoop, hd, List.length_cons]
      exact ⟨by rw [ih1], by rw [ih2], by rw [ih3]⟩

/-- C7: a frame with no depth map is skipped without aborting; on success
the skipped count equals exactly the number of frame ids with no depth map
and the used count the number with one (with one output vector per used
frame); the run fails with EmptyResultError if and only if zero frames
were usable. -/
theorem collectVectors_spec (keys : List ℤ) (centers : ℤ → ℤ × ℤ)
    (depth : ℤ → Option XYZMap) (k : ℤ) :
    (∀ vs used skipped,
      collectVectors keys centers depth k = .ok (vs, used, skipped) →
        skipped = (keys.filter fun f => (depth f).isNone).length ∧
        used = (keys.filter fun f => (depth f).isSome).length ∧
        vs.length = used) ∧
    (collectVectors keys centers depth k = .error .emptyResult ↔
      (keys.filter fun f => (depth f).isSome).length = 0) := by
  have hN : ((keys.insertionSort (fun a b => a ≤ b)).filter
      fun f => (depth f).isNone).length =
      (keys.filter fun f => (depth f).isNone).length := by
    rw [← List.countP_eq_length_filter, ← List.countP_eq_length_filter]
    exact (List.perm_insertionSort _ keys).countP_eq _
  have hS : ((keys.insertionSort (fun a b => a ≤ b)).filter
      fun f => (depth f).isSome).length =
      (keys.filter fun f => (depth f).isSome).length := by
    rw [← List.countP_eq_length_filter, ← List.countP_eq_length_filter]
    exact (List.perm_insertionSort _ keys).countP_eq _
  obtain ⟨h1, h2, h3⟩ :=
    collectLoop_spec centers depth k (keys.insertionSort (fun a b => a ≤ b))
  constructor
  · intro vs used skipped h
    simp only [collectVectors] at h
    by_cases hz : (collectLoop centers depth k
        (keys.insertionSort (fun a b => a ≤ b))).2.1 = 0
    · rw [if_pos hz] at h
      exact absurd h (by simp)
    · rw [if_neg hz] at h
      injection h with h'
      rw [h'] at h1 h2 h3
      rw [hN] at h1
      rw [hS] at h2
      exact ⟨h1, h2, h3⟩
  · constructor
    · intro h
      simp only [collectVectors] at h
      by_cases hz : (collectLoop centers depth k
          (keys.insertionSort (fun a b => a ≤ b))).2.1 = 0
      · rw [← hS, ← h2]
        exact hz
      · rw [if_neg hz] at h
        exact absurd h (by simp)
    · intro h0
      simp only [collectVectors]
      rw [if_pos]
      rw [h2, hS]
      exact h0

/-- Witness for C7: frame 0 has no depth map and frame 1 has one, so the
run succeeds with one vector, one used frame and one skipped frame. -/
theorem collectVectors_spec_witness :
    (1 : ℕ) = (([0, 1] : List ℤ).filter fun f =>
      ((fun f : ℤ => if f = 1
        then some (⟨1, 1, fun _ _ => (.num 1, .num 0, .num 0)⟩ : XYZMap)
        else none) f).isNone).length ∧
    (1 : ℕ) = (([0, 1] : List ℤ).filter fun f =>
      ((fun f : ℤ => if f = 1
        then some (⟨1, 1, fun _ _ => (.num 1, .num 0, .num 0)⟩ : XYZMap)
        else none) f).isSome).length ∧
    ([((.num 1 : FP), (.num 0 : FP))] : List (FP × FP)).length = 1 := by
  have heval : collectVectors [0, 1] (fun _ => (0, 0))
      (fun f : ℤ => if f = 1
        then some (⟨1, 1, fun _ _ => (.num 1, .num 0, .num 0)⟩ : XYZMap)
        else none) 3 = .ok ([(.num 1, .num 0)], 1, 1) := by
    have hpatch : patchAt (⟨1, 1, fun _ _ => (.num 1, .num 0, .num 0)⟩ : XYZMap)
        0 0 3 = [(.num 1, .num 0, .num 0)] := rfl
    have hgood : (patchAt (⟨1, 1, fun _ _ => (.num 1, .num 0, .num 0)⟩ : XYZMap)
        0 0 3).filter (fun p => finiteV p && normPos p) =
        [(.num 1, .num 0, .num 0)] := by
      rw [hpatch, List.filter_cons_of_pos, List.filter_nil]
      simp only [finiteV, normPos, FP.sq, FP.add, FP.pos, FP.isFinite,
        Bool.and_eq_true, decide_eq_true_eq]
      norm_num
    have hrob : robustXyzAt (⟨1, 1, fun _ _ => (.num 1, .num 0, .num 0)⟩ : XYZMap)
        0 0 3 = (.num 1, .num 0, .num 0) := by
      simp only [robustXyzAt, hgood]
      norm_num [medianQ, FP.toQ, List.insertionSort, List.orderedInsert]
    simp only [collectVectors, List.insertionSort, List.orderedInsert]
    norm_num [collectLoop, hrob]
  exact (collectVectors_spec [0, 1] (fun _ => (0, 0)) _ 3).1
    [(.num 1, .num 0)] 1 1 heval

end Perception
